import Mathlib

/-!
Shallow embedding of the CHIP-8 interpreter core (`src/chip8.rs`) of the
repository `fu-penzi/chip-8`, together with theorems checking the
natural-language specification against the code.

Modelling conventions:
* Rust `u8`/`u16` fields are modelled as `Nat`; wrapping is made explicit
  (`% 256`, `% 65536`) exactly where the source wraps (`wrapping_add`,
  `<<`, overflow of `overflowing_add`/`overflowing_sub`).  Checked Rust
  arithmetic and slice indexing panic on violation; every such panic is
  modelled as an explicit `Panic` value.  `(c, some p)` means the Rust
  process panics while the `Chip8` aggregate holds the (possibly partially
  mutated) state `c`; `(c, none)` is normal completion with final state `c`.
* Arrays (`ram`, `registers`, `stack`, `video`, `keypad`) are modelled as
  total functions out of `Nat`; every access the source performs through a
  possibly out-of-range index is preceded by the explicit bounds test that
  Rust's indexing performs (panic `indexOutOfBounds` on failure).  Indices
  derived from 4-bit nibbles (always < 16) index the 16-entry arrays
  directly, as in the source, where they are in range by construction.
* The process-global random byte of `RND Vx,NN` (`rand::random`) is passed
  to `cycle`/`exec` as an explicit input byte `rnd`.
* `load_rom` takes the ROM contents as a byte list; reading the file from
  disk (`fs::read`) is host I/O outside the core and outside the model.
-/

/-- Pointwise update of a function modelling a mutable array slot. -/
def upd {α : Type} (f : Nat → α) (k : Nat) (v : α) : Nat → α :=
  fun n => if n = k then v else f n

/-- Rust panics of the interpreter core.  `notSupportedAddress a` is the
explicit `panic!("Not supported address {:#x}", a)` in `cycle`/`load_rom`;
`illegalOp w` is `panic!("Illegal OP {:#x}", w)` in the dispatch;
`indexOutOfBounds` is the Rust slice-index panic; `arithOverflow` is the
checked-arithmetic overflow/underflow panic (`sp -= 1`, `pc -= 2`, u16 `+`). -/
inductive Panic where
  | notSupportedAddress (addr : Nat)
  | illegalOp (opcode : Nat)
  | indexOutOfBounds
  | arithOverflow
deriving DecidableEq, Repr

/-- The `Chip8` state aggregate (struct `Chip8` in `src/chip8.rs`). -/
structure Chip8 where
  /-- 4 kB of RAM; meaningful addresses 0..4095, byte values < 256. -/
  ram : Nat → Nat
  /-- 16 8-bit registers V0..VF; meaningful indices 0..15. -/
  registers : Nat → Nat
  /-- stack of 16 16-bit return addresses. -/
  stack : Nat → Nat
  /-- 64×32 display, row-major: index `y * 64 + x`, indices 0..2047. -/
  video : Nat → Bool
  /-- 16 key states, nonzero = pressed. -/
  keypad : Nat → Nat
  /-- stack pointer (u8). -/
  sp : Nat
  /-- program counter (u16). -/
  pc : Nat
  /-- index register I (u16). -/
  i : Nat
  /-- sound timer (u8). -/
  st : Nat
  /-- delay timer (u8). -/
  dt : Nat
  /-- code of current operation (u16). -/
  opcode : Nat

namespace Chip8

/-- `CLS`: clear display (`op_00e0`). -/
def op_00e0 (c : Chip8) : Chip8 × Option Panic :=
  ({ c with video := fun _ => false }, none)

/-- `RET` (`op_00ee`): `self.sp -= 1; self.pc = self.stack[self.sp]`.
With `sp = 0` the checked u8 subtraction panics; with `sp - 1 ≥ 16` the
stack index panics. -/
def op_00ee (c : Chip8) : Chip8 × Option Panic :=
  if c.sp = 0 then (c, some .arithOverflow)
  else if 16 ≤ c.sp - 1 then (c, some .indexOutOfBounds)
  else ({ c with sp := c.sp - 1, pc := c.stack (c.sp - 1) }, none)

/-- `JMP NNN` (`op_1nnn`). -/
def op_1nnn (c : Chip8) : Chip8 × Option Panic :=
  ({ c with pc := c.opcode &&& 0x0FFF }, none)

/-- `CALL NNN` (`op_2nnn`): `stack[sp] = pc` (index panic when `sp ≥ 16`),
`sp += 1`, `pc = NNN`. -/
def op_2nnn (c : Chip8) : Chip8 × Option Panic :=
  if 16 ≤ c.sp then (c, some .indexOutOfBounds)
  else
    ({ c with stack := upd c.stack c.sp c.pc, sp := c.sp + 1,
              pc := c.opcode &&& 0x0FFF }, none)

/-- `SE Vx, NN` (`op_3xnn`). -/
def op_3xnn (c : Chip8) : Chip8 × Option Panic :=
  let x := (c.opcode &&& 0x0F00) >>> 8
  let nn := c.opcode &&& 0x00FF
  if c.registers x = nn then ({ c with pc := c.pc + 2 }, none) else (c, none)

/-- `SNE Vx, NN` (`op_4xnn`). -/
def op_4xnn (c : Chip8) : Chip8 × Option Panic :=
  let x := (c.opcode &&& 0x0F00) >>> 8
  let nn := c.opcode &&& 0x00FF
  if c.registers x ≠ nn then ({ c with pc := c.pc + 2 }, none) else (c, none)

/-- `SE Vx, Vy` (`op_5xy0`). -/
def op_5xy0 (c : Chip8) : Chip8 × Option Panic :=
  let x := (c.opcode &&& 0x0F00) >>> 8
  let y := (c.opcode &&& 0x00F0) >>> 4
  if c.registers x = c.registers y then ({ c with pc := c.pc + 2 }, none)
  else (c, none)

/-- `LD Vx, NN` (`op_6xnn`). -/
def op_6xnn (c : Chip8) : Chip8 × Option Panic :=
  let x := (c.opcode &&& 0x0F00) >>> 8
  let nn := c.opcode &&& 0xFF
  ({ c with registers := upd c.registers x nn }, none)

/-- `ADD Vx, NN` (`op_7xnn`): `wrapping_add`, mod 256. -/
def op_7xnn (c : Chip8) : Chip8 × Option Panic :=
  let x := (c.opcode &&& 0x0F00) >>> 8
  let nn := c.opcode &&& 0xFF
  ({ c with registers := upd c.registers x ((c.registers x + nn) % 256) }, none)

/-- `LD Vx, Vy` (`op_8xy0`). -/
def op_8xy0 (c : Chip8) : Chip8 × Option Panic :=
  let x := (c.opcode &&& 0x0F00) >>> 8
  let y := (c.opcode &&& 0x00F0) >>> 4
  ({ c with registers := upd c.registers x (c.registers y) }, none)

/-- `OR Vx, Vy` (`op_8xy1`). -/
def op_8xy1 (c : Chip8) : Chip8 × Option Panic :=
  let x := (c.opcode &&& 0x0F00) >>> 8
  let y := (c.opcode &&& 0x00F0) >>> 4
  ({ c with registers := upd c.registers x (c.registers x ||| c.registers y) },
    none)

/-- `AND Vx, Vy` (`op_8xy2`). -/
def op_8xy2 (c : Chip8) : Chip8 × Option Panic :=
  let x := (c.opcode &&& 0x0F00) >>> 8
  let y := (c.opcode &&& 0x00F0) >>> 4
  ({ c with registers := upd c.registers x (c.registers x &&& c.registers y) },
    none)

/-- `XOR Vx, Vy` (`op_8xy3`). -/
def op_8xy3 (c : Chip8) : Chip8 × Option Panic :=
  let x := (c.opcode &&& 0x0F00) >>> 8
  let y := (c.opcode &&& 0x00F0) >>> 4
  ({ c with registers := upd c.registers x (c.registers x ^^^ c.registers y) },
    none)

/-- `ADD Vx, Vy` (`op_8xy4`): `overflowing_add` on u8 values (`< 256`):
wrapped sum and carry flag; VF is written before Vx. -/
def op_8xy4 (c : Chip8) : Chip8 × Option Panic :=
  let x := (c.opcode &&& 0x0F00) >>> 8
  let y := (c.opcode &&& 0x00F0) >>> 4
  let new_vx := (c.registers x + c.registers y) % 256
  let carry := 256 ≤ c.registers x + c.registers y
  let r1 := upd c.registers 0xF (if carry then 1 else 0)
  ({ c with registers := upd r1 x new_vx }, none)

/-- `SUB Vx, Vy` (`op_8xy5`): `overflowing_sub` on u8 values; the wrapped
difference of u8 values `a`, `b` is `(a + 256 - b) % 256`, the borrow flag
is `a < b`; VF (1 on no borrow) is written before Vx. -/
def op_8xy5 (c : Chip8) : Chip8 × Option Panic :=
  let x := (c.opcode &&& 0x0F00) >>> 8
  let y := (c.opcode &&& 0x00F0) >>> 4
  let new_vx := (c.registers x + 256 - c.registers y) % 256
  let borrow := c.registers x < c.registers y
  let r1 := upd c.registers 0xF (if borrow then 0 else 1)
  ({ c with registers := upd r1 x new_vx }, none)

/-- `SHR Vx` (`op_8xy6`): VF is written first, then `registers[x] >>= 1`
re-reads the (possibly just overwritten, when x = 0xF) slot. -/
def op_8xy6 (c : Chip8) : Chip8 × Option Panic :=
  let x := (c.opcode &&& 0x0F00) >>> 8
  let r1 := upd c.registers 0xF (c.registers x &&& 1)
  ({ c with registers := upd r1 x (r1 x >>> 1) }, none)

/-- `SUBN Vx, Vy` (`op_8xy7`): wrapped `Vy - Vx` and borrow flag as in
`op_8xy5`; VF written before Vx. -/
def op_8xy7 (c : Chip8) : Chip8 × Option Panic :=
  let x := (c.opcode &&& 0x0F00) >>> 8
  let y := (c.opcode &&& 0x00F0) >>> 4
  let new_vx := (c.registers y + 256 - c.registers x) % 256
  let borrow := c.registers y < c.registers x
  let r1 := upd c.registers 0xF (if borrow then 0 else 1)
  ({ c with registers := upd r1 x new_vx }, none)

/-- `SHL Vx` (`op_8xye`): `registers[0xF] = registers[x] & (0x1 << 7)`
(the masked byte, 0 or 128), then `registers[x] <<= 1` re-reading the
slot; u8 shift keeps the low 8 bits. -/
def op_8xye (c : Chip8) : Chip8 × Option Panic :=
  let x := (c.opcode &&& 0x0F00) >>> 8
  let r1 := upd c.registers 0xF (c.registers x &&& (1 <<< 7))
  ({ c with registers := upd r1 x ((r1 x <<< 1) % 256) }, none)

/-- `SNE Vx, Vy` (`op_9xy0`). -/
def op_9xy0 (c : Chip8) : Chip8 × Option Panic :=
  let x := (c.opcode &&& 0x0F00) >>> 8
  let y := (c.opcode &&& 0x00F0) >>> 4
  if c.registers x ≠ c.registers y then ({ c with pc := c.pc + 2 }, none)
  else (c, none)

/-- `LD I, NNN` (`op_annn`). -/
def op_annn (c : Chip8) : Chip8 × Option Panic :=
  ({ c with i := c.opcode &&& 0x0FFF }, none)

/-- `JMP V0, NNN` (`op_bnnn`): u16 sum `V0 + nnn ≤ 255 + 4095`, no overflow. -/
def op_bnnn (c : Chip8) : Chip8 × Option Panic :=
  let nnn := c.opcode &&& 0xFFF
  ({ c with pc := c.registers 0 + nnn }, none)

/-- `RND Vx, NN` (`op_cxnn`); the random byte `rnd` models `rand::random()`. -/
def op_cxnn (rnd : Nat) (c : Chip8) : Chip8 × Option Panic :=
  let x := (c.opcode &&& 0x0F00) >>> 8
  let nn := c.opcode &&& 0x00FF
  ({ c with registers := upd c.registers x (nn &&& rnd) }, none)

/-- Inner column loop of `op_dxyn` (`for col in 0..8`), drawing the bits of
one sprite byte on display row `curr_y`; `col` is the next column offset,
`rem` the remaining iteration count.  The u8 sum `x_coord + col` stays
below 64 + 8, so it cannot overflow and needs no checked-add model. -/
def dxynCols (x_coord curr_y sprite_byte : Nat) :
    Nat → Nat → (Nat → Bool) → Bool → (Nat → Bool) × Bool
  | _, 0, video, collision => (video, collision)
  | col, rem + 1, video, collision =>
    let curr_x := (x_coord + col) % 64
    let idx := curr_y * 64 + curr_x
    let sprite_bit := sprite_byte &&& (1 <<< (7 - col))
    if 0 < sprite_bit then
      let collision1 := if video idx then true else collision
      dxynCols x_coord curr_y sprite_byte (col + 1) rem
        (upd video idx (xor (video idx) true)) collision1
    else
      dxynCols x_coord curr_y sprite_byte (col + 1) rem video collision

/-- Outer row loop of `op_dxyn` (`for row in 0..sprite_length`): loads the
sprite byte `ram[I + row]` (u16 add panics on overflow, index panics at
4096), computes `curr_y = (y_coord + row) % 32` (u8 sum below 64 + 16, no
overflow) and draws the 8 columns.  Returns the display, the collision
flag, and the panic, if any, with the display as mutated so far. -/
def dxynRows (c : Chip8) (x_coord y_coord : Nat) :
    Nat → Nat → (Nat → Bool) → Bool → (Nat → Bool) × Bool × Option Panic
  | _, 0, video, collision => (video, collision, none)
  | row, rem + 1, video, collision =>
    if 65536 ≤ c.i + row then (video, collision, some .arithOverflow)
    else if 4096 ≤ c.i + row then (video, collision, some .indexOutOfBounds)
    else
      let sprite_byte := c.ram (c.i + row)
      let curr_y := (y_coord + row) % 32
      let vc := dxynCols x_coord curr_y sprite_byte 0 8 video collision
      dxynRows c x_coord y_coord (row + 1) rem vc.1 vc.2

/-- `DRW Vx, Vy, N` (`op_dxyn`).  Note the source computes both base
coordinates with `% DISP_WIDTH` (64): `y_coord = registers[y] % 64`,
reduced per-row to `% 32 = DISP_HEIGHT`.  On a panic inside the loop the
collision flag is discarded and VF is not written, but display rows drawn
so far stay mutated. -/
def op_dxyn (c : Chip8) : Chip8 × Option Panic :=
  let x := (c.opcode &&& 0x0F00) >>> 8
  let y := (c.opcode &&& 0x00F0) >>> 4
  let sprite_length := c.opcode &&& 0x000F
  let x_coord := c.registers x % 64
  let y_coord := c.registers y % 64
  match dxynRows c x_coord y_coord 0 sprite_length c.video false with
  | (video1, collision, none) =>
    ({ c with video := video1,
              registers := upd c.registers 0xF (if collision then 1 else 0) },
      none)
  | (video1, _, some p) => ({ c with video := video1 }, some p)

/-- `SKP Vx` (`op_ex9e`): `keypad[registers[x]]` — the key index is a full
u8, so the 16-entry keypad access panics when `registers[x] ≥ 16`. -/
def op_ex9e (c : Chip8) : Chip8 × Option Panic :=
  let x := (c.opcode &&& 0x0F00) >>> 8
  if 16 ≤ c.registers x then (c, some .indexOutOfBounds)
  else if 0 < c.keypad (c.registers x) then ({ c with pc := c.pc + 2 }, none)
  else (c, none)

/-- `SKNP Vx` (`op_exa1`). -/
def op_exa1 (c : Chip8) : Chip8 × Option Panic :=
  let x := (c.opcode &&& 0x0F00) >>> 8
  if 16 ≤ c.registers x then (c, some .indexOutOfBounds)
  else if c.keypad (c.registers x) = 0 then ({ c with pc := c.pc + 2 }, none)
  else (c, none)

/-- `LD Vx, DT` (`op_fx07`). -/
def op_fx07 (c : Chip8) : Chip8 × Option Panic :=
  let x := (c.opcode &&& 0x0F00) >>> 8
  ({ c with registers := upd c.registers x c.dt }, none)

/-- `LD Vx, KEY` (`op_fx0a`): polls `keypad[x]` with the literal register
index `x`; on a press stores `x` itself into Vx, otherwise rewinds the
program counter by 2 (checked u16 subtraction, panics when `pc < 2`). -/
def op_fx0a (c : Chip8) : Chip8 × Option Panic :=
  let x := (c.opcode &&& 0x0F00) >>> 8
  if 0 < c.keypad x then ({ c with registers := upd c.registers x x }, none)
  else if c.pc < 2 then (c, some .arithOverflow)
  else ({ c with pc := c.pc - 2 }, none)

/-- `LD DT, Vx` (`op_fx15`). -/
def op_fx15 (c : Chip8) : Chip8 × Option Panic :=
  let x := (c.opcode &&& 0x0F00) >>> 8
  ({ c with dt := c.registers x }, none)

/-- `LD ST, Vx` (`op_fx18`). -/
def op_fx18 (c : Chip8) : Chip8 × Option Panic :=
  let x := (c.opcode &&& 0x0F00) >>> 8
  ({ c with st := c.registers x }, none)

/-- `ADD I, Vx` (`op_fx1e`): `wrapping_add` at 16 bits. -/
def op_fx1e (c : Chip8) : Chip8 × Option Panic :=
  let x := (c.opcode &&& 0x0F00) >>> 8
  ({ c with i := (c.i + c.registers x) % 65536 }, none)

/-- `LD I, FONT(Vx)` (`op_fx29`): u16 product `registers[x] * 5 ≤ 1275`,
no overflow. -/
def op_fx29 (c : Chip8) : Chip8 × Option Panic :=
  let x := (c.opcode &&& 0x0F00) >>> 8
  ({ c with i := c.registers x * 5 }, none)

/-- `BCD Vx` (`op_fx33`): the three digit computations are exactly the
source expressions (`tens = (v % 100 - ones) / 10` never underflows since
`v % 10 ≤ v % 100`, and `v - tens*10 - ones = 100 * (v / 100)`, so Nat
subtraction agrees with checked u8 subtraction); the three RAM stores are
separate index operations, each panicking at an address ≥ 4096, `I + 1`
and `I + 2` being u16 additions (no overflow for `I ≤ 4095`). -/
def op_fx33 (c : Chip8) : Chip8 × Option Panic :=
  let x := (c.opcode &&& 0x0F00) >>> 8
  let v_x := c.registers x
  let ones := v_x % 10
  let tens := (v_x % 100 - ones) / 10
  let hundreds := (v_x - tens * 10 - ones) / 100
  if 4096 ≤ c.i then (c, some .indexOutOfBounds)
  else
    let c1 := { c with ram := upd c.ram c.i hundreds }
    if 4096 ≤ c.i + 1 then (c1, some .indexOutOfBounds)
    else
      let c2 := { c1 with ram := upd c1.ram (c.i + 1) tens }
      if 4096 ≤ c.i + 2 then (c2, some .indexOutOfBounds)
      else ({ c2 with ram := upd c2.ram (c.i + 2) ones }, none)

/-- Loop of `op_fx55` (`for i in 0..=x`): stores `registers[j]` at
`ram[I + j]`; the u16 sum `I + j` panics on overflow at 65536 and the RAM
index panics at 4096.  `j` is the next loop index, `rem` the remaining
iteration count. -/
def fx55Go : Nat → Nat → Chip8 → Chip8 × Option Panic
  | _, 0, c => (c, none)
  | j, rem + 1, c =>
    if 65536 ≤ c.i + j then (c, some .arithOverflow)
    else if 4096 ≤ c.i + j then (c, some .indexOutOfBounds)
    else fx55Go (j + 1) rem
      { c with ram := upd c.ram (c.i + j) (c.registers j) }

/-- `LD [I], Vx` (`op_fx55`): block store of V0..Vx; I is not modified. -/
def op_fx55 (c : Chip8) : Chip8 × Option Panic :=
  let x := (c.opcode &&& 0x0F00) >>> 8
  fx55Go 0 (x + 1) c

/-- Loop of `op_fx65` (`for i in 0..=x`): loads `ram[I + i]` into
`registers[i]`; the sum `I + i` is usize arithmetic (no overflow), the RAM
index panics at 4096. -/
def fx65Go : Nat → Nat → Chip8 → Chip8 × Option Panic
  | _, 0, c => (c, none)
  | j, rem + 1, c =>
    if 4096 ≤ c.i + j then (c, some .indexOutOfBounds)
    else fx65Go (j + 1) rem
      { c with registers := upd c.registers j (c.ram (c.i + j)) }

/-- `LD Vx, [I]` (`op_fx65`): block load into V0..Vx, then
`I = I.wrapping_add(x + 1)`; on a panic inside the loop the final I update
is not reached. -/
def op_fx65 (c : Chip8) : Chip8 × Option Panic :=
  let x := (c.opcode &&& 0x0F00) >>> 8
  match fx65Go 0 (x + 1) c with
  | (c1, none) => ({ c1 with i := (c1.i + (x + 1)) % 65536 }, none)
  | (c1, some p) => (c1, some p)

/-- Nibble field `digit_1 = (opcode & 0xF000) >> 12` of `cycle`. -/
def d1 (op : Nat) : Nat := (op &&& 0xF000) >>> 12

/-- Nibble field `digit_2 = (opcode & 0x0F00) >> 8` of `cycle`. -/
def d2 (op : Nat) : Nat := (op &&& 0x0F00) >>> 8

/-- Nibble field `digit_3 = (opcode & 0x00F0) >> 4` of `cycle`. -/
def d3 (op : Nat) : Nat := (op &&& 0x00F0) >>> 4

/-- Nibble field `digit_4 = opcode & 0x000F` of `cycle`. -/
def d4 (op : Nat) : Nat := op &&& 0x000F

/-- Dispatch on the four nibbles of the fetched opcode (the locals
`digit_1..digit_4` of `cycle`, here the functions `d1..d4` of the stored
opcode): the Rust `match` modelled as a first-match chain of boolean
tests in source order; the final arm is `panic!("Illegal OP", opcode)`. -/
def exec (rnd : Nat) (c : Chip8) : Chip8 × Option Panic :=
  if d1 c.opcode == 0 && d2 c.opcode == 0 && d3 c.opcode == 0xE
      && d4 c.opcode == 0 then op_00e0 c
  else if d1 c.opcode == 0 && d2 c.opcode == 0 && d3 c.opcode == 0xE
      && d4 c.opcode == 0xE then op_00ee c
  else if d1 c.opcode == 1 then op_1nnn c
  else if d1 c.opcode == 2 then op_2nnn c
  else if d1 c.opcode == 3 then op_3xnn c
  else if d1 c.opcode == 4 then op_4xnn c
  else if d1 c.opcode == 5 && d4 c.opcode == 0 then op_5xy0 c
  else if d1 c.opcode == 6 then op_6xnn c
  else if d1 c.opcode == 7 then op_7xnn c
  else if d1 c.opcode == 8 && d4 c.opcode == 0 then op_8xy0 c
  else if d1 c.opcode == 8 && d4 c.opcode == 1 then op_8xy1 c
  else if d1 c.opcode == 8 && d4 c.opcode == 2 then op_8xy2 c
  else if d1 c.opcode == 8 && d4 c.opcode == 3 then op_8xy3 c
  else if d1 c.opcode == 8 && d4 c.opcode == 4 then op_8xy4 c
  else if d1 c.opcode == 8 && d4 c.opcode == 5 then op_8xy5 c
  else if d1 c.opcode == 8 && d4 c.opcode == 6 then op_8xy6 c
  else if d1 c.opcode == 8 && d4 c.opcode == 7 then op_8xy7 c
  else if d1 c.opcode == 8 && d4 c.opcode == 0xE then op_8xye c
  else if d1 c.opcode == 9 && d4 c.opcode == 0 then op_9xy0 c
  else if d1 c.opcode == 0xA then op_annn c
  else if d1 c.opcode == 0xB then op_bnnn c
  else if d1 c.opcode == 0xC then op_cxnn rnd c
  else if d1 c.opcode == 0xD then op_dxyn c
  else if d1 c.opcode == 0xE && d3 c.opcode == 9 && d4 c.opcode == 0xE then
    op_ex9e c
  else if d1 c.opcode == 0xE && d3 c.opcode == 0xA && d4 c.opcode == 1 then
    op_exa1 c
  else if d1 c.opcode == 0xF && d3 c.opcode == 0 && d4 c.opcode == 7 then
    op_fx07 c
  else if d1 c.opcode == 0xF && d3 c.opcode == 0 && d4 c.opcode == 0xA then
    op_fx0a c
  else if d1 c.opcode == 0xF && d3 c.opcode == 1 && d4 c.opcode == 5 then
    op_fx15 c
  else if d1 c.opcode == 0xF && d3 c.opcode == 1 && d4 c.opcode == 8 then
    op_fx18 c
  else if d1 c.opcode == 0xF && d3 c.opcode == 1 && d4 c.opcode == 0xE then
    op_fx1e c
  else if d1 c.opcode == 0xF && d3 c.opcode == 2 && d4 c.opcode == 9 then
    op_fx29 c
  else if d1 c.opcode == 0xF && d3 c.opcode == 3 && d4 c.opcode == 3 then
    op_fx33 c
  else if d1 c.opcode == 0xF && d3 c.opcode == 5 && d4 c.opcode == 5 then
    op_fx55 c
  else if d1 c.opcode == 0xF && d3 c.opcode == 6 && d4 c.opcode == 5 then
    op_fx65 c
  else (c, some (.illegalOp c.opcode))

/-- The big-endian composition of the two bytes fetched at `pc`, `pc + 1`
(source: `(ram[pc] as u16) << 8 | ram[pc + 1] as u16`). -/
def fetchWord (c : Chip8) : Nat :=
  (c.ram c.pc <<< 8) ||| c.ram (c.pc + 1)

/-- One execution step (`Chip8::cycle`): explicit `pc > 0xFFF` check
(panic `Not supported address`), then the two fetch reads — the read of
`ram[pc + 1]` is an index panic when `pc = 0xFFF` — then `opcode` is
stored, `pc` advances by 2 (u16 sum ≤ 0x1001, no overflow) and the
dispatch runs. -/
def cycle (rnd : Nat) (c : Chip8) : Chip8 × Option Panic :=
  if 0xFFF < c.pc then (c, some (.notSupportedAddress c.pc))
  else if 4096 ≤ c.pc + 1 then (c, some .indexOutOfBounds)
  else exec rnd { c with opcode := fetchWord c, pc := c.pc + 2 }

/-- Loop of `load_rom`: copies ROM bytes into RAM from address `idx` on,
panicking with `Not supported address` as soon as `idx` passes 0xFFF. -/
def loadGo : Nat → List Nat → Chip8 → Chip8 × Option Panic
  | _, [], c => (c, none)
  | idx, content :: rest, c =>
    if 0xFFF < idx then (c, some (.notSupportedAddress idx))
    else loadGo (idx + 1) rest { c with ram := upd c.ram idx content }

/-- `Chip8::load_rom` with the file contents passed as a byte list
(reading the file itself is host I/O outside the core). -/
def load_rom (contents : List Nat) (c : Chip8) : Chip8 × Option Panic :=
  loadGo 0x200 contents c

end Chip8

/-- An all-zero machine state used to build concrete test states. -/
def zeroChip : Chip8 :=
  { ram := fun _ => 0, registers := fun _ => 0, stack := fun _ => 0,
    video := fun _ => false, keypad := fun _ => 0,
    sp := 0, pc := 0x200, i := 0, st := 0, dt := 0, opcode := 0 }

@[simp] theorem upd_same {α : Type} (f : Nat → α) (k : Nat) (v : α) :
    upd f k v k = v := by
  simp [upd]

theorem upd_ne {α : Type} (f : Nat → α) (k v : _) {n : Nat} (h : n ≠ k) :
    upd f k v n = f n := by
  simp [upd, h]

/-- The register index nibble `x = (opcode & 0x0F00) >> 8` is below 16. -/
theorem x_nibble_lt (op : Nat) : (op &&& 0x0F00) >>> 8 < 16 := by
  have h : op &&& 0x0F00 ≤ 0x0F00 := Nat.and_le_right
  have h2 : (op &&& 0x0F00) >>> 8 = (op &&& 0x0F00) / 2 ^ 8 :=
    Nat.shiftRight_eq_div_pow _ _
  omega

/-- The nibble `n = opcode & 0x000F` is below 16. -/
theorem n_nibble_lt (op : Nat) : op &&& 0x000F < 16 := by
  have h : op &&& 0x000F ≤ 0x000F := Nat.and_le_right
  omega

namespace Chip8

/-- C9 (confirmed): for every machine state with Vx < 256 and in-bounds I,
`BCD Vx` writes the hundreds digit of Vx to `memory[I]`, the tens digit to
`memory[I+1]` and the ones digit to `memory[I+2]`, and mutates no other
memory or register state. -/
theorem c9_bcd_digits (c : Chip8)
    (hi : c.i + 2 ≤ 4095)
    (hv : c.registers ((c.opcode &&& 0x0F00) >>> 8) < 256) :
    (op_fx33 c).2 = none ∧
    (op_fx33 c).1.ram c.i = c.registers ((c.opcode &&& 0x0F00) >>> 8) / 100 ∧
    (op_fx33 c).1.ram (c.i + 1)
      = c.registers ((c.opcode &&& 0x0F00) >>> 8) / 10 % 10 ∧
    (op_fx33 c).1.ram (c.i + 2)
      = c.registers ((c.opcode &&& 0x0F00) >>> 8) % 10 ∧
    (∀ a, a ≠ c.i → a ≠ c.i + 1 → a ≠ c.i + 2 →
      (op_fx33 c).1.ram a = c.ram a) ∧
    (op_fx33 c).1.registers = c.registers ∧
    (op_fx33 c).1.i = c.i ∧ (op_fx33 c).1.pc = c.pc ∧
    (op_fx33 c).1.sp = c.sp ∧ (op_fx33 c).1.video = c.video := by
  have e1 : ¬ (4096 ≤ c.i) := by omega
  have e2 : ¬ (4096 ≤ c.i + 1) := by omega
  have e3 : ¬ (4096 ≤ c.i + 2) := by omega
  simp only [op_fx33, if_neg e1, if_neg e2, if_neg e3]
  refine ⟨trivial, ?_, ?_, ?_, ?_, trivial, trivial, trivial, trivial, trivial⟩
  · rw [upd_ne _ _ _ (by omega), upd_ne _ _ _ (by omega), upd_same]
    omega
  · rw [upd_ne _ _ _ (by omega), upd_same]
    omega
  · rw [upd_same]
  · intro a ha0 ha1 ha2
    rw [upd_ne _ _ _ ha2, upd_ne _ _ _ ha1, upd_ne _ _ _ ha0]

/-- Witness for C9 at Vx = 234, I = 0x250: digits 2, 3, 4 are written. -/
theorem c9_bcd_digits_witness :
    (op_fx33 { zeroChip with
      opcode := 0xF133, i := 0x250,
      registers := upd zeroChip.registers 1 234 }).1.ram 0x250 = 2 ∧
    (op_fx33 { zeroChip with
      opcode := 0xF133, i := 0x250,
      registers := upd zeroChip.registers 1 234 }).1.ram 0x251 = 3 ∧
    (op_fx33 { zeroChip with
      opcode := 0xF133, i := 0x250,
      registers := upd zeroChip.registers 1 234 }).1.ram 0x252 = 4 := by
  obtain ⟨-, h1, h2, h3, -, -, -, -, -, -⟩ :=
    c9_bcd_digits { zeroChip with
      opcode := 0xF133, i := 0x250,
      registers := upd zeroChip.registers 1 234 } (by decide) (by decide)
  exact ⟨h1, h2, h3⟩

/-- C10 (confirmed): in `ADD Vx,Vy`, `SUB Vx,Vy` and `SUBN Vx,Vy` the flag
is written to VF before the wrapped result is written to Vx, so with
x = 0xF the final VF is the wrapped result, while with x ≠ 0xF VF holds
the carry/borrow flag and Vx the result. -/
theorem c10_flag_before_result (c : Chip8) :
    ((c.opcode &&& 0x0F00) >>> 8 = 0xF →
      (op_8xy4 c).1.registers 0xF
        = (c.registers 0xF + c.registers ((c.opcode &&& 0x00F0) >>> 4)) % 256 ∧
      (op_8xy5 c).1.registers 0xF
        = (c.registers 0xF + 256
            - c.registers ((c.opcode &&& 0x00F0) >>> 4)) % 256 ∧
      (op_8xy7 c).1.registers 0xF
        = (c.registers ((c.opcode &&& 0x00F0) >>> 4) + 256
            - c.registers 0xF) % 256) ∧
    ((c.opcode &&& 0x0F00) >>> 8 ≠ 0xF →
      ((op_8xy4 c).1.registers 0xF
        = (if 256 ≤ c.registers ((c.opcode &&& 0x0F00) >>> 8)
                  + c.registers ((c.opcode &&& 0x00F0) >>> 4)
           then 1 else 0) ∧
       (op_8xy4 c).1.registers ((c.opcode &&& 0x0F00) >>> 8)
        = (c.registers ((c.opcode &&& 0x0F00) >>> 8)
            + c.registers ((c.opcode &&& 0x00F0) >>> 4)) % 256) ∧
      ((op_8xy5 c).1.registers 0xF
        = (if c.registers ((c.opcode &&& 0x0F00) >>> 8)
              < c.registers ((c.opcode &&& 0x00F0) >>> 4)
           then 0 else 1) ∧
       (op_8xy5 c).1.registers ((c.opcode &&& 0x0F00) >>> 8)
        = (c.registers ((c.opcode &&& 0x0F00) >>> 8) + 256
            - c.registers ((c.opcode &&& 0x00F0) >>> 4)) % 256) ∧
      ((op_8xy7 c).1.registers 0xF
        = (if c.registers ((c.opcode &&& 0x00F0) >>> 4)
              < c.registers ((c.opcode &&& 0x0F00) >>> 8)
           then 0 else 1) ∧
       (op_8xy7 c).1.registers ((c.opcode &&& 0x0F00) >>> 8)
        = (c.registers ((c.opcode &&& 0x00F0) >>> 4) + 256
            - c.registers ((c.opcode &&& 0x0F00) >>> 8)) % 256)) := by
  constructor
  · intro hx
    refine ⟨?_, ?_, ?_⟩ <;>
      simp only [op_8xy4, op_8xy5, op_8xy7, hx, upd_same]
  · intro hx
    have h15 : (0xF : Nat) ≠ (c.opcode &&& 0x0F00) >>> 8 := fun h => hx h.symm
    refine ⟨⟨?_, ?_⟩, ⟨?_, ?_⟩, ⟨?_, ?_⟩⟩ <;>
      simp only [op_8xy4, op_8xy5, op_8xy7, upd_same,
        upd_ne _ _ _ h15, upd_ne _ _ _ hx]

/-- Witness for C10 at a concrete state: opcode `0x8F04` (x = 0xF, y = 0)
with VF = 200, V0 = 100: the final VF is the wrapped sum 44, not the
carry flag; and opcode `0x8104` style instances for x ≠ 0xF. -/
theorem c10_flag_before_result_witness :
    (op_8xy4 { zeroChip with
      opcode := 0x8F04,
      registers := upd (upd zeroChip.registers 0xF 200) 0 100 }).1.registers
        0xF = 44 ∧
    (op_8xy4 { zeroChip with
      opcode := 0x8104,
      registers := upd (upd zeroChip.registers 1 200) 0 100 }).1.registers
        0xF = 1 ∧
    (op_8xy4 { zeroChip with
      opcode := 0x8104,
      registers := upd (upd zeroChip.registers 1 200) 0 100 }).1.registers
        1 = 44 := by
  refine ⟨?_, ?_, ?_⟩
  · have h := (c10_flag_before_result { zeroChip with
      opcode := 0x8F04,
      registers := upd (upd zeroChip.registers 0xF 200) 0 100 }).1
      (by decide)
    rw [h.1]
    decide
  · have h := (c10_flag_before_result { zeroChip with
      opcode := 0x8104,
      registers := upd (upd zeroChip.registers 1 200) 0 100 }).2
      (by decide)
    rw [h.1.1]
    decide
  · have h := (c10_flag_before_result { zeroChip with
      opcode := 0x8104,
      registers := upd (upd zeroChip.registers 1 200) 0 100 }).2
      (by decide)
    have h2 := h.1.2
    rw [show ((0x8104 &&& 0x0F00 : Nat) >>> 8) = 1 from by decide] at h2
    rw [h2]
    decide

/-- C6 (code bug): `SHL Vx` stores `Vx & 0x80` — the value 128 when bit 7
is set — into VF instead of the flag value 1: at V0 = 0x80 the code yields
VF = 128 where the spec requires 1; the shifted result `Vx << 1` kept to
8 bits (here 0) is as specified. -/
theorem c6_shl_vf_is_masked_byte :
    (op_8xye { zeroChip with
      opcode := 0x80EE,
      registers := upd zeroChip.registers 0 0x80 }).1.registers 0xF = 128 ∧
    (op_8xye { zeroChip with
      opcode := 0x80EE,
      registers := upd zeroChip.registers 0 0x80 }).1.registers 0 = 0 ∧
    ¬ (op_8xye { zeroChip with
      opcode := 0x80EE,
      registers := upd zeroChip.registers 0 0x80 }).1.registers 0xF = 1 := by
  decide

/-- Characterization of the in-bounds run of the `LD [I],Vx` store loop:
starting at loop index `j` with `rem` iterations left, all of them within
RAM, it stores `registers[k]` at `ram[I + k]` for `j ≤ k < j + rem`, leaves
every other RAM cell and all non-RAM state unchanged, and does not panic. -/
theorem fx55Go_ok (rem : Nat) : ∀ j c, c.i + j + rem ≤ 4096 →
    (fx55Go j rem c).2 = none ∧
    (fx55Go j rem c).1.i = c.i ∧
    (fx55Go j rem c).1.registers = c.registers ∧
    (fx55Go j rem c).1.opcode = c.opcode ∧
    (∀ k, j ≤ k → k < j + rem →
      (fx55Go j rem c).1.ram (c.i + k) = c.registers k) ∧
    (∀ a, a < c.i + j ∨ c.i + j + rem ≤ a →
      (fx55Go j rem c).1.ram a = c.ram a) := by
  induction rem with
  | zero =>
    intro j c _
    refine ⟨rfl, rfl, rfl, rfl, ?_, ?_⟩
    · intro k h1 h2; omega
    · intro a _; rfl
  | succ m ih =>
    intro j c hb
    have e1 : ¬ (65536 ≤ c.i + j) := by omega
    have e2 : ¬ (4096 ≤ c.i + j) := by omega
    have heq : fx55Go j (m + 1) c
        = fx55Go (j + 1) m { c with ram := upd c.ram (c.i + j) (c.registers j) } := by
      simp only [fx55Go, if_neg e1, if_neg e2]
    obtain ⟨g1, g2, g3, g4, g5, g6⟩ :=
      ih (j + 1) { c with ram := upd c.ram (c.i + j) (c.registers j) }
        (show c.i + (j + 1) + m ≤ 4096 by omega)
    rw [show ({ c with ram := upd c.ram (c.i + j) (c.registers j) } : Chip8).i
        = c.i from rfl] at g2 g5 g6
    rw [show ({ c with ram := upd c.ram (c.i + j) (c.registers j) } : Chip8).registers
        = c.registers from rfl] at g3 g5
    rw [show ({ c with ram := upd c.ram (c.i + j) (c.registers j) } : Chip8).opcode
        = c.opcode from rfl] at g4
    rw [heq]
    refine ⟨g1, g2, g3, g4, ?_, ?_⟩
    · intro k h1 h2
      rcases Nat.eq_or_lt_of_le h1 with h | h
      · rw [← h, g6 (c.i + j) (by omega)]
        exact upd_same _ _ _
      · exact g5 k h (by omega)
    · intro a ha
      rw [g6 a (by omega)]
      exact upd_ne _ _ _ (by omega)

/-- Characterization of an out-of-bounds run of the `LD [I],Vx` store
loop: if the iterations starting at `j` would run past RAM, the loop
panics with the slice-index panic at offset `4096 - I`, having already
committed every store below address 4096; other cells are unchanged. -/
theorem fx55Go_oob (rem : Nat) : ∀ j c, c.i + j ≤ 4096 →
    4096 < c.i + j + rem →
    (fx55Go j rem c).2 = some .indexOutOfBounds ∧
    (fx55Go j rem c).1.i = c.i ∧
    (fx55Go j rem c).1.registers = c.registers ∧
    (fx55Go j rem c).1.opcode = c.opcode ∧
    (∀ k, j ≤ k → c.i + k < 4096 →
      (fx55Go j rem c).1.ram (c.i + k) = c.registers k) ∧
    (∀ a, a < c.i + j ∨ 4096 ≤ a → (fx55Go j rem c).1.ram a = c.ram a) := by
  induction rem with
  | zero => intro j c h1 h2; omega
  | succ m ih =>
    intro j c h1 h2
    have e1 : ¬ (65536 ≤ c.i + j) := by omega
    rcases Nat.eq_or_lt_of_le h1 with hedge | hlt
    · have e2 : 4096 ≤ c.i + j := by omega
      have heq : fx55Go j (m + 1) c = (c, some .indexOutOfBounds) := by
        simp only [fx55Go, if_neg e1, if_pos e2]
      rw [heq]
      refine ⟨rfl, rfl, rfl, rfl, ?_, ?_⟩
      · intro k hk1 hk2; omega
      · intro a _; rfl
    · have e2 : ¬ (4096 ≤ c.i + j) := by omega
      have heq : fx55Go j (m + 1) c
          = fx55Go (j + 1) m
              { c with ram := upd c.ram (c.i + j) (c.registers j) } := by
        simp only [fx55Go, if_neg e1, if_neg e2]
      obtain ⟨g1, g2, g3, g4, g5, g6⟩ :=
        ih (j + 1) { c with ram := upd c.ram (c.i + j) (c.registers j) }
          (show c.i + (j + 1) ≤ 4096 by omega)
          (show 4096 < c.i + (j + 1) + m by omega)
      rw [show ({ c with ram := upd c.ram (c.i + j) (c.registers j) } : Chip8).i
          = c.i from rfl] at g2 g5 g6
      rw [show ({ c with ram := upd c.ram (c.i + j) (c.registers j) } : Chip8).registers
          = c.registers from rfl] at g3 g5
      rw [show ({ c with ram := upd c.ram (c.i + j) (c.registers j) } : Chip8).opcode
          = c.opcode from rfl] at g4
      rw [heq]
      refine ⟨g1, g2, g3, g4, ?_, ?_⟩
      · intro k hk1 hk2
        rcases Nat.eq_or_lt_of_le hk1 with h | h
        · rw [← h, g6 (c.i + j) (by omega)]
          exact upd_same _ _ _
        · exact g5 k h hk2
      · intro a ha
        rw [g6 a (by omega)]
        exact upd_ne _ _ _ (by omega)

/-- Characterization of the in-bounds run of the `LD Vx,[I]` load loop:
it loads `ram[I + k]` into `registers[k]` for `j ≤ k < j + rem`, leaves
the other registers, RAM and I unchanged, and does not panic. -/
theorem fx65Go_ok (rem : Nat) : ∀ j c, c.i + j + rem ≤ 4096 →
    (fx65Go j rem c).2 = none ∧
    (fx65Go j rem c).1.i = c.i ∧
    (fx65Go j rem c).1.ram = c.ram ∧
    (fx65Go j rem c).1.opcode = c.opcode ∧
    (∀ k, j ≤ k → k < j + rem →
      (fx65Go j rem c).1.registers k = c.ram (c.i + k)) ∧
    (∀ r, r < j ∨ j + rem ≤ r →
      (fx65Go j rem c).1.registers r = c.registers r) := by
  induction rem with
  | zero =>
    intro j c _
    refine ⟨rfl, rfl, rfl, rfl, ?_, ?_⟩
    · intro k h1 h2; omega
    · intro r _; rfl
  | succ m ih =>
    intro j c hb
    have e2 : ¬ (4096 ≤ c.i + j) := by omega
    have heq : fx65Go j (m + 1) c
        = fx65Go (j + 1) m
            { c with registers := upd c.registers j (c.ram (c.i + j)) } := by
      simp only [fx65Go, if_neg e2]
    obtain ⟨g1, g2, g3, g4, g5, g6⟩ :=
      ih (j + 1) { c with registers := upd c.registers j (c.ram (c.i + j)) }
        (show c.i + (j + 1) + m ≤ 4096 by omega)
    rw [show ({ c with registers := upd c.registers j (c.ram (c.i + j)) }
        : Chip8).i = c.i from rfl] at g2 g5
    rw [show ({ c with registers := upd c.registers j (c.ram (c.i + j)) }
        : Chip8).ram = c.ram from rfl] at g3 g5
    rw [show ({ c with registers := upd c.registers j (c.ram (c.i + j)) }
        : Chip8).opcode = c.opcode from rfl] at g4
    rw [heq]
    refine ⟨g1, g2, g3, g4, ?_, ?_⟩
    · intro k h1 h2
      rcases Nat.eq_or_lt_of_le h1 with h | h
      · rw [← h, g6 j (by omega)]
        exact upd_same _ _ _
      · exact g5 k h (by omega)
    · intro r hr
      rw [g6 r (by omega)]
      exact upd_ne _ _ _ (by omega)

/-- Characterization of a fully in-bounds `LD Vx,[I]`: loads V0..Vx from
`ram[I..I+x]`, leaves higher registers and RAM unchanged, and finally
advances I by `x + 1` (wrapping at 16 bits). -/
theorem op_fx65_ok (c : Chip8)
    (h : c.i + ((c.opcode &&& 0x0F00) >>> 8) + 1 ≤ 4096) :
    (op_fx65 c).2 = none ∧
    (op_fx65 c).1.i = (c.i + ((c.opcode &&& 0x0F00) >>> 8 + 1)) % 65536 ∧
    (op_fx65 c).1.ram = c.ram ∧
    (∀ k, k ≤ (c.opcode &&& 0x0F00) >>> 8 →
      (op_fx65 c).1.registers k = c.ram (c.i + k)) ∧
    (∀ r, (c.opcode &&& 0x0F00) >>> 8 < r →
      (op_fx65 c).1.registers r = c.registers r) := by
  obtain ⟨l1, l2, l3, l4, l5, l6⟩ :=
    fx65Go_ok ((c.opcode &&& 0x0F00) >>> 8 + 1) 0 c (by omega)
  have hp : fx65Go 0 ((c.opcode &&& 0x0F00) >>> 8 + 1) c
      = ((fx65Go 0 ((c.opcode &&& 0x0F00) >>> 8 + 1) c).1, none) := by
    rw [← l1]
  have hld : op_fx65 c
      = ({ (fx65Go 0 ((c.opcode &&& 0x0F00) >>> 8 + 1) c).1 with
            i := ((fx65Go 0 ((c.opcode &&& 0x0F00) >>> 8 + 1) c).1.i
              + ((c.opcode &&& 0x0F00) >>> 8 + 1)) % 65536 }, none) := by
    show (match fx65Go 0 ((c.opcode &&& 0x0F00) >>> 8 + 1) c with
      | (c1, none) =>
        ({ c1 with i := (c1.i + ((c.opcode &&& 0x0F00) >>> 8 + 1)) % 65536 },
          none)
      | (c1, some p) => (c1, some p)) = _
    rw [hp]
  rw [hld]
  refine ⟨rfl, by rw [l2], l3, ?_, ?_⟩
  · intro k hk
    exact l5 k (by omega) (by omega)
  · intro r hr
    exact l6 r (by omega)

/-- C8 (confirmed): with every accessed address in bounds, `LD [I],Vx`
followed by `LD Vx,[I]` with the same x restores V0..Vx; the store leaves
I unchanged and the load then advances I by exactly x + 1. -/
theorem c8_store_load_roundtrip (c : Chip8)
    (h : c.i + ((c.opcode &&& 0x0F00) >>> 8) ≤ 4095) :
    (op_fx55 c).2 = none ∧
    (op_fx55 c).1.i = c.i ∧
    (op_fx65 (op_fx55 c).1).2 = none ∧
    (∀ j, j ≤ (c.opcode &&& 0x0F00) >>> 8 →
      (op_fx65 (op_fx55 c).1).1.registers j = c.registers j) ∧
    (op_fx65 (op_fx55 c).1).1.i
      = c.i + ((c.opcode &&& 0x0F00) >>> 8) + 1 := by
  have hx : (c.opcode &&& 0x0F00) >>> 8 < 16 := x_nibble_lt c.opcode
  have hst : fx55Go 0 ((c.opcode &&& 0x0F00) >>> 8 + 1) c = op_fx55 c := rfl
  obtain ⟨s1, s2, s3, s4, s5, s6⟩ :=
    fx55Go_ok ((c.opcode &&& 0x0F00) >>> 8 + 1) 0 c (by omega)
  rw [hst] at s1 s2 s3 s4 s5 s6
  obtain ⟨g1, g2, g3, g4, g5⟩ :=
    op_fx65_ok (op_fx55 c).1 (by rw [s4, s2]; omega)
  rw [s4] at g2 g4
  rw [s2] at g2 g4
  refine ⟨s1, s2, g1, ?_, ?_⟩
  · intro j hj
    rw [g4 j hj, s5 j (by omega) (by omega)]
  · rw [g2, Nat.mod_eq_of_lt (by omega)]
    omega

/-- Witness for C8 at x = 3, I = 0x300, registers Vn = n + 3: the round
trip restores V0..V3, the store leaves I = 0x300 and the load advances I
to 0x304. -/
theorem c8_store_load_roundtrip_witness :
    (op_fx55 { zeroChip with
      opcode := 0xF355, i := 0x300,
      registers := fun n => (n + 3) % 256 }).1.i = 0x300 ∧
    (op_fx65 (op_fx55 { zeroChip with
      opcode := 0xF355, i := 0x300,
      registers := fun n => (n + 3) % 256 }).1).1.registers 2 = 5 ∧
    (op_fx65 (op_fx55 { zeroChip with
      opcode := 0xF355, i := 0x300,
      registers := fun n => (n + 3) % 256 }).1).1.i = 0x304 := by
  obtain ⟨-, h2, -, h4, h5⟩ :=
    c8_store_load_roundtrip { zeroChip with
      opcode := 0xF355, i := 0x300,
      registers := fun n => (n + 3) % 256 } (by decide)
  refine ⟨h2, ?_, by simpa using h5⟩
  have := h4 2 (by decide)
  simpa using this

/-- C2 counterexample: `LD [I],V2` (opcode 0xF255) with I = 4094 and
V0 = 7, V1 = 8 fails address validation (its last store would hit address
4096), yet it has already mutated memory: `ram[4094]`, previously 0,
holds 7 when the index panic fires — the instruction is partially
applied, refuting the claim that no memory mutation happens. -/
theorem c2_counterexample :
    (op_fx55 { zeroChip with
      opcode := 0xF255, i := 4094,
      registers := upd (upd (upd zeroChip.registers 0 7) 1 8) 2 9 }).2
      = some Panic.indexOutOfBounds ∧
    (op_fx55 { zeroChip with
      opcode := 0xF255, i := 4094,
      registers := upd (upd (upd zeroChip.registers 0 7) 1 8) 2 9 }).1.ram
      4094 = 7 ∧
    ({ zeroChip with
      opcode := 0xF255, i := 4094,
      registers := upd (upd (upd zeroChip.registers 0 7) 1 8) 2 9 }
      : Chip8).ram 4094 = 0 := by
  decide

/-- C2 (corrected): the handlers perform no up-front address validation;
an out-of-bounds access panics at the offending access and every write
already performed by the same instruction stays committed.  For
`LD [I],Vx` overrunning RAM, all stores below address 4096 are committed
before the index panic; for `BCD Vx` at I = 4094 the hundreds and tens
digits are committed before the ones-digit store panics. -/
theorem c2_oob_commits_partial_writes :
    (∀ c : Chip8, c.i ≤ 4095 →
      4096 < c.i + ((c.opcode &&& 0x0F00) >>> 8) + 1 →
      (op_fx55 c).2 = some Panic.indexOutOfBounds ∧
      (∀ k, c.i + k ≤ 4095 → (op_fx55 c).1.ram (c.i + k) = c.registers k) ∧
      (∀ a, 4096 ≤ a → (op_fx55 c).1.ram a = c.ram a)) ∧
    (∀ c : Chip8, c.i = 4094 →
      (op_fx33 c).2 = some Panic.indexOutOfBounds ∧
      (op_fx33 c).1.ram 4094
        = c.registers ((c.opcode &&& 0x0F00) >>> 8) / 100 ∧
      (op_fx33 c).1.ram 4095
        = c.registers ((c.opcode &&& 0x0F00) >>> 8) / 10 % 10) := by
  constructor
  · intro c h1 h2
    have hoob : fx55Go 0 ((c.opcode &&& 0x0F00) >>> 8 + 1) c = op_fx55 c := rfl
    obtain ⟨s1, s2, s3, s4, s5, s6⟩ :=
      fx55Go_oob ((c.opcode &&& 0x0F00) >>> 8 + 1) 0 c (by omega) (by omega)
    rw [hoob] at s1 s2 s3 s4 s5 s6
    exact ⟨s1, fun k hk => s5 k (by omega) (by omega), fun a ha => s6 a (by omega)⟩
  · intro c hI
    have e1 : ¬ (4096 ≤ c.i) := by omega
    have e2 : ¬ (4096 ≤ c.i + 1) := by omega
    have e3 : (4096 ≤ c.i + 2) := by omega
    simp only [op_fx33, if_neg e1, if_neg e2, if_pos e3]
    refine ⟨trivial, ?_, ?_⟩
    · rw [hI]
      rw [upd_ne _ _ _ (by omega), upd_same]
      omega
    · rw [hI]
      rw [upd_same]
      omega

/-- Witness for C2's amended theorem: the state of the counterexample,
plus a `BCD Vx` at I = 4094 with Vx = 234 committing digits 2 and 3
before the panic. -/
theorem c2_oob_commits_partial_writes_witness :
    (op_fx55 { zeroChip with
      opcode := 0xF255, i := 4094,
      registers := upd (upd (upd zeroChip.registers 0 7) 1 8) 2 9 }).1.ram
      4095 = 8 ∧
    (op_fx33 { zeroChip with
      opcode := 0xF133, i := 4094,
      registers := upd zeroChip.registers 1 234 }).2
      = some Panic.indexOutOfBounds ∧
    (op_fx33 { zeroChip with
      opcode := 0xF133, i := 4094,
      registers := upd zeroChip.registers 1 234 }).1.ram 4094 = 2 ∧
    (op_fx33 { zeroChip with
      opcode := 0xF133, i := 4094,
      registers := upd zeroChip.registers 1 234 }).1.ram 4095 = 3 := by
  obtain ⟨ha, hb⟩ := c2_oob_commits_partial_writes
  obtain ⟨-, h5, -⟩ := ha { zeroChip with
    opcode := 0xF255, i := 4094,
    registers := upd (upd (upd zeroChip.registers 0 7) 1 8) 2 9 }
    (by decide) (by decide)
  obtain ⟨k1, k2, k3⟩ := hb { zeroChip with
    opcode := 0xF133, i := 4094,
    registers := upd zeroChip.registers 1 234 } (by decide)
  refine ⟨?_, k1, by simpa using k2, by simpa using k3⟩
  have := h5 1 (by decide)
  simpa using this

/-- With both fetch addresses in range, `cycle` is the dispatch applied to
the fetched state: `opcode` set to the composed word and `pc` advanced by
2 before any handler runs. -/
theorem cycle_eq_exec (rnd : Nat) (c : Chip8) (h : c.pc + 1 ≤ 0xFFF) :
    cycle rnd c = exec rnd { c with opcode := fetchWord c, pc := c.pc + 2 } := by
  unfold cycle
  rw [if_neg (by omega), if_neg (by omega)]

theorem exec_to_1nnn (rnd : Nat) (c : Chip8) (h1 : d1 c.opcode = 1) :
    exec rnd c = op_1nnn c := by
  simp [exec, h1]

theorem exec_to_2nnn (rnd : Nat) (c : Chip8) (h1 : d1 c.opcode = 2) :
    exec rnd c = op_2nnn c := by
  simp [exec, h1]

theorem exec_to_3xnn (rnd : Nat) (c : Chip8) (h1 : d1 c.opcode = 3) :
    exec rnd c = op_3xnn c := by
  simp [exec, h1]

theorem exec_to_6xnn (rnd : Nat) (c : Chip8) (h1 : d1 c.opcode = 6) :
    exec rnd c = op_6xnn c := by
  simp [exec, h1]

theorem exec_to_00ee (rnd : Nat) (c : Chip8)
    (h1 : d1 c.opcode = 0) (h2 : d2 c.opcode = 0)
    (h3 : d3 c.opcode = 0xE) (h4 : d4 c.opcode = 0xE) :
    exec rnd c = op_00ee c := by
  simp [exec, h1, h2, h3, h4]

theorem exec_to_fx0a (rnd : Nat) (c : Chip8)
    (h1 : d1 c.opcode = 0xF) (h3 : d3 c.opcode = 0)
    (h4 : d4 c.opcode = 0xA) :
    exec rnd c = op_fx0a c := by
  simp [exec, h1, h3, h4]

/-- A nibble pattern `(5, _, _, d4)` with `d4 ≠ 0` matches no dispatch
row: the execution falls through to the `Illegal OP` panic. -/
theorem exec_illegal_5xy (rnd : Nat) (c : Chip8)
    (h1 : d1 c.opcode = 5) (h4 : d4 c.opcode = 1) :
    exec rnd c = (c, some (.illegalOp c.opcode)) := by
  simp [exec, h1, h4]

/-- Big-endian byte composition: `(hi << 8) | lo` equals `hi * 256 + lo`
for a low byte below 256. -/
theorem shiftLeft_lor_eq_add (a b : Nat) (hb : b < 256) :
    (a <<< 8) ||| b = a * 256 + b := by
  apply Nat.eq_of_testBit_eq
  intro j
  rw [Nat.testBit_lor, Nat.testBit_shiftLeft,
    show a * 256 + b = 2 ^ 8 * a + b by ring,
    Nat.testBit_mul_pow_two_add a (show b < 2 ^ 8 from hb) j]
  by_cases h : j < 8
  · simp [h, show ¬ (j ≥ 8) by omega]
  · have h256 : (256 : Nat) ≤ 2 ^ j := by
      calc (256 : Nat) = 2 ^ 8 := rfl
        _ ≤ 2 ^ j := Nat.pow_le_pow_right (by omega) (by omega)
    have hB : b.testBit j = false :=
      Nat.testBit_lt_two_pow (Nat.lt_of_lt_of_le hb h256)
    simp [h, show j ≥ 8 by omega, hB]

/-- The ROM-copy loop panics with `Not supported address 0x1000` as soon
as the write index passes 0xFFF. -/
theorem loadGo_oob : ∀ (bytes : List Nat) (idx : Nat) (c : Chip8),
    idx ≤ 0x1000 → 0x1000 < idx + bytes.length →
    (loadGo idx bytes c).2 = some (Panic.notSupportedAddress 0x1000) := by
  intro bytes
  induction bytes with
  | nil =>
    intro idx c h1 h2
    simp only [List.length_nil] at h2
    omega
  | cons b rest ih =>
    intro idx c h1 h2
    by_cases hidx : 0xFFF < idx
    · have hi4096 : idx = 0x1000 := by omega
      subst hi4096
      simp only [loadGo, if_pos (show (0xFFF : Nat) < 0x1000 by omega)]
    · simp only [loadGo, if_neg hidx]
      apply ih (idx + 1) _ (by omega)
      simp only [List.length_cons] at h2
      omega

/-- A `LD Vx,KEY` step with the polled key unpressed only rewinds the
advanced program counter: the resulting state differs from the starting
one in the `opcode` field alone. -/
theorem cycle_fx0a_unpressed (rnd : Nat) (c : Chip8)
    (hpc : c.pc + 1 ≤ 0xFFF) (h1 : d1 (fetchWord c) = 0xF)
    (h3 : d3 (fetchWord c) = 0) (h4 : d4 (fetchWord c) = 0xA)
    (hkey : c.keypad (d2 (fetchWord c)) = 0) :
    cycle rnd c = ({ c with opcode := fetchWord c }, none) := by
  rw [cycle_eq_exec rnd c hpc,
    exec_to_fx0a rnd { c with opcode := fetchWord c, pc := c.pc + 2 } h1 h3 h4]
  have hkey2 : c.keypad ((fetchWord c &&& 0x0F00) >>> 8) = 0 := hkey
  have hp2 : ¬ (c.pc + 2 < 2) := by omega
  simp [op_fx0a, hkey2, hp2]

/-- C5 (confirmed): whenever the fetch succeeds, the dispatch runs on the
state whose program counter is already `pc + 2`; consequently a plain
register load (`6xnn`) ends the step at `pc + 2`, a jump (`1nnn`)
overwrites the advanced value with `nnn`, and a taken skip (`3xnn` with
`Vx = nn`) adds its own 2 on top, ending at `pc + 4`. -/
theorem c5_pc_advanced_before_handler (rnd : Nat) (c : Chip8)
    (h : c.pc + 1 ≤ 0xFFF) :
    cycle rnd c = exec rnd { c with opcode := fetchWord c, pc := c.pc + 2 } ∧
    (d1 (fetchWord c) = 6 → (cycle rnd c).1.pc = c.pc + 2) ∧
    (d1 (fetchWord c) = 1 → (cycle rnd c).1.pc = fetchWord c &&& 0x0FFF) ∧
    (d1 (fetchWord c) = 3 →
      c.registers (d2 (fetchWord c)) = fetchWord c &&& 0x00FF →
      (cycle rnd c).1.pc = c.pc + 2 + 2) := by
  refine ⟨cycle_eq_exec rnd c h, ?_, ?_, ?_⟩
  · intro h6
    rw [cycle_eq_exec rnd c h,
      exec_to_6xnn rnd { c with opcode := fetchWord c, pc := c.pc + 2 } h6]
    simp [op_6xnn]
  · intro h1
    rw [cycle_eq_exec rnd c h,
      exec_to_1nnn rnd { c with opcode := fetchWord c, pc := c.pc + 2 } h1]
    simp [op_1nnn]
  · intro h3 hcond
    rw [cycle_eq_exec rnd c h,
      exec_to_3xnn rnd { c with opcode := fetchWord c, pc := c.pc + 2 } h3]
    have hcond2 : c.registers ((fetchWord c &&& 0x0F00) >>> 8)
        = fetchWord c &&& 0x00FF := hcond
    simp [op_3xnn, hcond2]

/-- Witness for C5: a `LD V1,0x23` step from pc = 0x200 ends at 0x202; a
`JMP 0xABC` ends at 0xABC; a taken `SE V0,0` ends at 0x204. -/
theorem c5_pc_advanced_before_handler_witness :
    (cycle 0 { zeroChip with
      ram := upd (upd zeroChip.ram 0x200 0x61) 0x201 0x23 }).1.pc = 0x202 ∧
    (cycle 0 { zeroChip with
      ram := upd (upd zeroChip.ram 0x200 0x1A) 0x201 0xBC }).1.pc = 0xABC ∧
    (cycle 0 { zeroChip with
      ram := upd (upd zeroChip.ram 0x200 0x30) 0x201 0x00 }).1.pc = 0x204 := by
  refine ⟨?_, ?_, ?_⟩
  · have h := (c5_pc_advanced_before_handler 0 { zeroChip with
      ram := upd (upd zeroChip.ram 0x200 0x61) 0x201 0x23 } (by decide)).2.1
      (by decide)
    simpa using h
  · have h := (c5_pc_advanced_before_handler 0 { zeroChip with
      ram := upd (upd zeroChip.ram 0x200 0x1A) 0x201 0xBC } (by decide)).2.2.1
      (by decide)
    rw [h]
    decide
  · have h := (c5_pc_advanced_before_handler 0 { zeroChip with
      ram := upd (upd zeroChip.ram 0x200 0x30) 0x201 0x00 } (by decide)).2.2.2
      (by decide) (by decide)
    simpa using h

/-- C4 counterexample: a fetch at pc = 0xFFF (address 0x1000 needed for
the second byte) does not produce the explicit address-check fault: the
explicit check `pc > 0xFFF` passes and the read of `ram[0x1000]` dies with
the slice-index panic, which is distinct from the `Not supported address`
panic of the address check (and is a panic, not a returned fault value). -/
theorem c4_counterexample :
    (cycle 0 { zeroChip with pc := 0xFFF }).2 = some Panic.indexOutOfBounds ∧
    some Panic.indexOutOfBounds ≠ some (Panic.notSupportedAddress 0xFFF) ∧
    some Panic.indexOutOfBounds ≠ some (Panic.notSupportedAddress 0x1000) := by
  decide

/-- C4 (corrected): the fetch panics with `Not supported address pc` only
when pc > 0xFFF; at pc = 0xFFF the check passes and the read of byte
pc + 1 = 0x1000 panics with the index panic instead; and when both fetch
addresses are in range the instruction word handed to the dispatch is the
big-endian composition `ram[pc] * 256 + ram[pc + 1]` of the two bytes. -/
theorem c4_fetch_fault_and_composition (rnd : Nat) (c : Chip8) :
    (0xFFF < c.pc →
      cycle rnd c = (c, some (Panic.notSupportedAddress c.pc))) ∧
    (c.pc = 0xFFF → cycle rnd c = (c, some Panic.indexOutOfBounds)) ∧
    (c.pc + 1 ≤ 0xFFF → c.ram (c.pc + 1) < 256 →
      cycle rnd c = exec rnd { c with
        opcode := c.ram c.pc * 256 + c.ram (c.pc + 1), pc := c.pc + 2 }) := by
  refine ⟨?_, ?_, ?_⟩
  · intro hgt
    unfold cycle
    rw [if_pos hgt]
  · intro heq
    unfold cycle
    rw [if_neg (by omega), if_pos (by omega)]
  · intro hle hbyte
    rw [cycle_eq_exec rnd c hle]
    rw [show fetchWord c = c.ram c.pc * 256 + c.ram (c.pc + 1) from
      shiftLeft_lor_eq_add _ _ hbyte]

/-- Witness for C4: pc = 0x2000 gives the explicit address-check panic;
pc = 0xFFF gives the index panic; a fetch of bytes 0x61, 0x23 at
pc = 0x200 hands opcode 0x6123 to the dispatch. -/
theorem c4_fetch_fault_and_composition_witness :
    cycle 0 { zeroChip with pc := 0x2000 }
      = ({ zeroChip with pc := 0x2000 },
          some (Panic.notSupportedAddress 0x2000)) ∧
    cycle 0 { zeroChip with pc := 0xFFF }
      = ({ zeroChip with pc := 0xFFF }, some Panic.indexOutOfBounds) ∧
    (cycle 0 { zeroChip with
      ram := upd (upd zeroChip.ram 0x200 0x61) 0x201 0x23 }).1.opcode
      = 0x6123 := by
  refine ⟨?_, ?_, ?_⟩
  · exact (c4_fetch_fault_and_composition 0
      { zeroChip with pc := 0x2000 }).1 (by decide)
  · exact (c4_fetch_fault_and_composition 0
      { zeroChip with pc := 0xFFF }).2.1 (by decide)
  · have h := (c4_fetch_fault_and_composition 0 { zeroChip with
      ram := upd (upd zeroChip.ram 0x200 0x61) 0x201 0x23 }).2.2
      (by decide) (by decide)
    rw [h]
    decide

/-- C1 counterexample: the fault conditions are reported as panics --
modelled by the `some`-valued second component, standing for Rust
`panic!`, i.e. process termination -- not as returned fault values: a
step whose fetched word 0x5001 matches no dispatch row dies with the
`Illegal OP` panic, and loading a 3585-byte ROM dies with the
`Not supported address` panic, the partial copy already written. -/
theorem c1_counterexample :
    (cycle 0 { zeroChip with
      ram := upd (upd zeroChip.ram 0x200 0x50) 0x201 0x01 }).2
      = some (Panic.illegalOp 0x5001) ∧
    (load_rom (List.replicate 3585 1) zeroChip).2
      = some (Panic.notSupportedAddress 0x1000) := by
  constructor
  · decide
  · exact loadGo_oob (List.replicate 3585 1) 0x200 zeroChip (by decide)
      (by rw [List.length_replicate]; omega)

/-- C1 (corrected): every fault is a panic (process termination), not an
explicit outcome value: pc above 0xFFF at fetch panics with the explicit
address check; an unmatched nibble pattern (5, _, _, 1) panics with
`Illegal OP`; `RET` with an empty stack panics through the checked
`sp -= 1`; `CALL` with the stack pointer past 15 panics through the stack
index; a ROM longer than 3584 bytes panics in the copy loop at 0x1000. -/
theorem c1_faults_are_panics :
    (∀ (rnd : Nat) (c : Chip8), 0xFFF < c.pc →
      cycle rnd c = (c, some (Panic.notSupportedAddress c.pc))) ∧
    (∀ (rnd : Nat) (c : Chip8), c.pc + 1 ≤ 0xFFF →
      d1 (fetchWord c) = 5 → d4 (fetchWord c) = 1 →
      (cycle rnd c).2 = some (Panic.illegalOp (fetchWord c))) ∧
    (∀ (rnd : Nat) (c : Chip8), c.pc + 1 ≤ 0xFFF →
      fetchWord c = 0x00EE → c.sp = 0 →
      (cycle rnd c).2 = some Panic.arithOverflow) ∧
    (∀ (rnd : Nat) (c : Chip8), c.pc + 1 ≤ 0xFFF →
      d1 (fetchWord c) = 2 → 16 ≤ c.sp →
      (cycle rnd c).2 = some Panic.indexOutOfBounds) ∧
    (∀ (bytes : List Nat) (c : Chip8), 3584 < bytes.length →
      (load_rom bytes c).2 = some (Panic.notSupportedAddress 0x1000)) := by
  refine ⟨?_, ?_, ?_, ?_, ?_⟩
  · intro rnd c hgt
    unfold cycle
    rw [if_pos hgt]
  · intro rnd c hle h1 h4
    rw [cycle_eq_exec rnd c hle,
      exec_illegal_5xy rnd { c with opcode := fetchWord c, pc := c.pc + 2 }
        h1 h4]
  · intro rnd c hle hw hsp
    have h1 : d1 (fetchWord c) = 0 := by rw [hw]; decide
    have h2 : d2 (fetchWord c) = 0 := by rw [hw]; decide
    have h3 : d3 (fetchWord c) = 0xE := by rw [hw]; decide
    have h4 : d4 (fetchWord c) = 0xE := by rw [hw]; decide
    rw [cycle_eq_exec rnd c hle,
      exec_to_00ee rnd { c with opcode := fetchWord c, pc := c.pc + 2 }
        h1 h2 h3 h4]
    simp [op_00ee, hsp]
  · intro rnd c hle h1 hsp
    rw [cycle_eq_exec rnd c hle,
      exec_to_2nnn rnd { c with opcode := fetchWord c, pc := c.pc + 2 } h1]
    simp [op_2nnn, hsp]
  · intro bytes c hlen
    exact loadGo_oob bytes 0x200 c (by omega) (by omega)

/-- Witness for C1's amended theorem at concrete states: pc = 0x2000,
word 0x5001, `RET` with sp = 0, `CALL 0x345` with sp = 16, and a
3585-byte ROM. -/
theorem c1_faults_are_panics_witness :
    cycle 0 { zeroChip with pc := 0x2000 }
      = ({ zeroChip with pc := 0x2000 },
          some (Panic.notSupportedAddress 0x2000)) ∧
    (cycle 0 { zeroChip with
      ram := upd (upd zeroChip.ram 0x200 0x50) 0x201 0x01,
      registers := upd zeroChip.registers 0 1 }).2
      = some (Panic.illegalOp 0x5001) ∧
    (cycle 0 { zeroChip with
      ram := upd (upd zeroChip.ram 0x200 0x00) 0x201 0xEE }).2
      = some Panic.arithOverflow ∧
    (cycle 0 { zeroChip with
      ram := upd (upd zeroChip.ram 0x200 0x23) 0x201 0x45, sp := 16 }).2
      = some Panic.indexOutOfBounds ∧
    (load_rom (List.replicate 3585 2) zeroChip).2
      = some (Panic.notSupportedAddress 0x1000) := by
  obtain ⟨p1, p2, p3, p4, p5⟩ := c1_faults_are_panics
  refine ⟨p1 0 _ (by decide), ?_, ?_, ?_, ?_⟩
  · have h := p2 0 { zeroChip with
      ram := upd (upd zeroChip.ram 0x200 0x50) 0x201 0x01,
      registers := upd zeroChip.registers 0 1 }
      (by decide) (by decide) (by decide)
    rw [h]
    decide
  · exact p3 0 _ (by decide) (by decide) (by decide)
  · exact p4 0 _ (by decide) (by decide) (by decide)
  · exact p5 (List.replicate 3585 2) zeroChip
      (by rw [List.length_replicate]; omega)


/-- C7 (confirmed): `LD Vx,KEY` polls `keypad[x]` with the literal
register index x from the opcode: while that key is unpressed the step
only rewinds the advanced program counter (so the pc is unchanged across
any number of repeated steps), and on a step where it is pressed the pc
stays advanced and Vx receives the value x. -/
theorem c7_key_wait_poll (rnd : Nat) (c : Chip8)
    (hpc : c.pc + 1 ≤ 0xFFF)
    (h1 : d1 (fetchWord c) = 0xF)
    (h3 : d3 (fetchWord c) = 0)
    (h4 : d4 (fetchWord c) = 0xA) :
    (c.keypad (d2 (fetchWord c)) = 0 →
      cycle rnd c = ({ c with opcode := fetchWord c }, none) ∧
      ∀ k, ((fun s => (cycle rnd s).1)^[k] c).pc = c.pc) ∧
    (0 < c.keypad (d2 (fetchWord c)) →
      cycle rnd c = ({ c with
        opcode := fetchWord c, pc := c.pc + 2,
        registers := upd c.registers (d2 (fetchWord c))
          (d2 (fetchWord c)) }, none) ∧
      (cycle rnd c).1.pc = c.pc + 2 ∧
      (cycle rnd c).1.registers (d2 (fetchWord c)) = d2 (fetchWord c)) := by
  constructor
  · intro hkey
    have hstep := cycle_fx0a_unpressed rnd c hpc h1 h3 h4 hkey
    refine ⟨hstep, ?_⟩
    have hfix : cycle rnd ({ c with opcode := fetchWord c } : Chip8)
        = ({ c with opcode := fetchWord c }, none) :=
      cycle_fx0a_unpressed rnd { c with opcode := fetchWord c }
        hpc h1 h3 h4 hkey
    have hiter : ∀ k, (fun s => (cycle rnd s).1)^[k]
        ({ c with opcode := fetchWord c } : Chip8)
        = { c with opcode := fetchWord c } := by
      intro k
      induction k with
      | zero => rfl
      | succ n ihn =>
        rw [Function.iterate_succ_apply, hfix]
        exact ihn
    intro k
    cases k with
    | zero => rfl
    | succ n =>
      have hn : ((fun s => (cycle rnd s).1)^[n]
          ({ c with opcode := fetchWord c } : Chip8)).pc = c.pc := by
        rw [hiter n]
      rw [Function.iterate_succ_apply, hstep]
      exact hn
  · intro hkey
    have hkey2 : 0 < c.keypad ((fetchWord c &&& 0x0F00) >>> 8) := hkey
    have hstep : cycle rnd c = ({ c with
        opcode := fetchWord c, pc := c.pc + 2,
        registers := upd c.registers (d2 (fetchWord c))
          (d2 (fetchWord c)) }, none) := by
      rw [cycle_eq_exec rnd c hpc,
        exec_to_fx0a rnd { c with opcode := fetchWord c, pc := c.pc + 2 }
          h1 h3 h4]
      simp [op_fx0a, hkey2]
      rfl
    refine ⟨hstep, ?_, ?_⟩
    · rw [hstep]
    · rw [hstep]
      exact upd_same _ _ _


/-- Witness for C7: with `LD V3,KEY` (word 0xF30A) at pc = 0x200 and key
3 unpressed, three repeated steps leave pc at 0x200; with key 3 pressed
the step ends at pc = 0x202 with V3 = 3. -/
theorem c7_key_wait_poll_witness :
    ((fun s => (cycle 0 s).1)^[3] { zeroChip with
      ram := upd (upd zeroChip.ram 0x200 0xF3) 0x201 0x0A }).pc = 0x200 ∧
    (cycle 0 { zeroChip with
      ram := upd (upd zeroChip.ram 0x200 0xF3) 0x201 0x0A,
      keypad := upd zeroChip.keypad 3 1 }).1.pc = 0x202 ∧
    (cycle 0 { zeroChip with
      ram := upd (upd zeroChip.ram 0x200 0xF3) 0x201 0x0A,
      keypad := upd zeroChip.keypad 3 1 }).1.registers 3 = 3 := by
  refine ⟨?_, ?_, ?_⟩
  · have h := ((c7_key_wait_poll 0 { zeroChip with
      ram := upd (upd zeroChip.ram 0x200 0xF3) 0x201 0x0A }
      (by decide) (by decide) (by decide) (by decide)).1 (by decide)).2 3
    simpa using h
  · have h := ((c7_key_wait_poll 0 { zeroChip with
      ram := upd (upd zeroChip.ram 0x200 0xF3) 0x201 0x0A,
      keypad := upd zeroChip.keypad 3 1 }
      (by decide) (by decide) (by decide) (by decide)).2 (by decide)).2.1
    simpa using h
  · have h := ((c7_key_wait_poll 0 { zeroChip with
      ram := upd (upd zeroChip.ram 0x200 0xF3) 0x201 0x0A,
      keypad := upd zeroChip.keypad 3 1 }
      (by decide) (by decide) (by decide) (by decide)).2 (by decide)).2.2
    rw [show d2 (fetchWord { zeroChip with
      ram := upd (upd zeroChip.ram 0x200 0xF3) 0x201 0x0A,
      keypad := upd zeroChip.keypad 3 1 }) = 3 from by decide] at h
    exact h


/-- Characterization of the 8-column inner draw loop: starting at column
`col` with `col + rem = 8`, every remaining column's pixel
`curr_y * 64 + (x_coord + cb) % 64` is XORed with its sprite bit, every
other pixel is untouched, and the collision flag becomes true exactly when
it was already true or some drawn bit hit a lit pixel. -/
theorem dxynCols_spec (x0 cy byte : Nat) : ∀ rem col video collision,
    col + rem = 8 →
    (∀ cb, col ≤ cb → cb < 8 →
      (dxynCols x0 cy byte col rem video collision).1
          (cy * 64 + (x0 + cb) % 64)
        = xor (video (cy * 64 + (x0 + cb) % 64))
            (decide (0 < byte &&& (1 <<< (7 - cb))))) ∧
    (∀ p, (∀ cb, col ≤ cb → cb < 8 → p ≠ cy * 64 + (x0 + cb) % 64) →
      (dxynCols x0 cy byte col rem video collision).1 p = video p) ∧
    ((dxynCols x0 cy byte col rem video collision).2 = true ↔
      (collision = true ∨ ∃ cb, col ≤ cb ∧ cb < 8 ∧
        0 < byte &&& (1 <<< (7 - cb)) ∧
        video (cy * 64 + (x0 + cb) % 64) = true)) := by
  intro rem
  induction rem with
  | zero =>
    intro col video collision hcol
    refine ⟨?_, ?_, ?_⟩
    · intro cb h1 h2
      omega
    · intro p _
      rfl
    · constructor
      · intro h
        exact Or.inl h
      · rintro (h | ⟨cb, hc1, hc2, -, -⟩)
        · exact h
        · omega
  | succ m ih =>
    intro col video collision hcol
    have hdist : ∀ cb1 cb2, cb1 < 8 → cb2 < 8 → cb1 ≠ cb2 →
        cy * 64 + (x0 + cb1) % 64 ≠ cy * 64 + (x0 + cb2) % 64 := by
      intro cb1 cb2 hb1 hb2 hne
      omega
    by_cases hbit : 0 < byte &&& (1 <<< (7 - col))
    · have heq : dxynCols x0 cy byte col (m + 1) video collision
          = dxynCols x0 cy byte (col + 1) m
              (upd video (cy * 64 + (x0 + col) % 64)
                (xor (video (cy * 64 + (x0 + col) % 64)) true))
              (if video (cy * 64 + (x0 + col) % 64) then true
               else collision) := by
        simp only [dxynCols, if_pos hbit]
      obtain ⟨ga, gb, gc⟩ := ih (col + 1)
        (upd video (cy * 64 + (x0 + col) % 64)
          (xor (video (cy * 64 + (x0 + col) % 64)) true))
        (if video (cy * 64 + (x0 + col) % 64) then true else collision)
        (by omega)
      rw [heq]
      refine ⟨?_, ?_, ?_⟩
      · intro cb h1 h2
        rcases Nat.eq_or_lt_of_le h1 with h | h
        · rw [← h]
          rw [gb (cy * 64 + (x0 + col) % 64)
            (fun cb2 hcb1 hcb2 => hdist col cb2 (by omega) hcb2 (by omega)),
            upd_same]
          simp [hbit]
        · rw [ga cb h h2,
            upd_ne _ _ _ (hdist cb col h2 (by omega) (by omega))]
      · intro p hp
        rw [gb p (fun cb h1 h2 => hp cb (by omega) h2),
          upd_ne _ _ _ (hp col (by omega) (by omega))]
      · rw [gc]
        constructor
        · rintro (hite | ⟨cb, hc1, hc2, hc3, hc4⟩)
          · by_cases hv : video (cy * 64 + (x0 + col) % 64) = true
            · exact Or.inr ⟨col, by omega, by omega, hbit, hv⟩
            · rw [if_neg hv] at hite
              exact Or.inl hite
          · rw [upd_ne _ _ _
              (hdist cb col hc2 (by omega) (by omega))] at hc4
            exact Or.inr ⟨cb, by omega, hc2, hc3, hc4⟩
        · rintro (hcoll | ⟨cb, hc1, hc2, hc3, hc4⟩)
          · left
            split
            · rfl
            · exact hcoll
          · rcases Nat.eq_or_lt_of_le hc1 with h | h
            · left
              rw [← h] at hc4
              rw [if_pos hc4]
            · right
              refine ⟨cb, by omega, hc2, hc3, ?_⟩
              rw [upd_ne _ _ _ (hdist cb col hc2 (by omega) (by omega))]
              exact hc4
    · have heq : dxynCols x0 cy byte col (m + 1) video collision
          = dxynCols x0 cy byte (col + 1) m video collision := by
        simp only [dxynCols, if_neg hbit]
      obtain ⟨ga, gb, gc⟩ := ih (col + 1) video collision (by omega)
      rw [heq]
      refine ⟨?_, ?_, ?_⟩
      · intro cb h1 h2
        rcases Nat.eq_or_lt_of_le h1 with h | h
        · rw [← h]
          rw [gb (cy * 64 + (x0 + col) % 64)
            (fun cb2 hcb1 hcb2 => hdist col cb2 (by omega) hcb2 (by omega))]
          simp [hbit]
        · exact ga cb h h2
      · intro p hp
        exact gb p (fun cb h1 h2 => hp cb (by omega) h2)
      · rw [gc]
        constructor
        · rintro (hcoll | ⟨cb, hc1, hc2, hc3, hc4⟩)
          · exact Or.inl hcoll
          · exact Or.inr ⟨cb, by omega, hc2, hc3, hc4⟩
        · rintro (hcoll | ⟨cb, hc1, hc2, hc3, hc4⟩)
          · exact Or.inl hcoll
          · rcases Nat.eq_or_lt_of_le hc1 with h | h
            · rw [← h] at hc3
              omega
            · exact Or.inr ⟨cb, by omega, hc2, hc3, hc4⟩


/-- Characterization of the in-bounds sprite row loop: with at most 16
rows in the window (`row + rem ≤ 16`, automatic since N is a nibble) and
all sprite bytes within RAM, the loop does not panic; every pixel
`((y_coord + r) % 32) * 64 + (x_coord + cb) % 64` of a remaining row `r`
is XORed with bit `7 - cb` of sprite byte `ram[I + r]`, every other pixel
is untouched, and the final collision flag is true exactly when it was
already true or some drawn sprite bit hit a lit pixel. -/
theorem dxynRows_spec (c : Chip8) (x0 y0 : Nat) :
    ∀ rem row video collision,
    row + rem ≤ 16 →
    c.i + row + rem ≤ 4096 →
    (dxynRows c x0 y0 row rem video collision).2.2 = none ∧
    (∀ r cb, row ≤ r → r < row + rem → cb < 8 →
      (dxynRows c x0 y0 row rem video collision).1
          (((y0 + r) % 32) * 64 + (x0 + cb) % 64)
        = xor (video (((y0 + r) % 32) * 64 + (x0 + cb) % 64))
            (decide (0 < c.ram (c.i + r) &&& (1 <<< (7 - cb))))) ∧
    (∀ p, (∀ r cb, row ≤ r → r < row + rem → cb < 8 →
        p ≠ ((y0 + r) % 32) * 64 + (x0 + cb) % 64) →
      (dxynRows c x0 y0 row rem video collision).1 p = video p) ∧
    ((dxynRows c x0 y0 row rem video collision).2.1 = true ↔
      (collision = true ∨ ∃ r, row ≤ r ∧ r < row + rem ∧ ∃ cb, cb < 8 ∧
        0 < c.ram (c.i + r) &&& (1 <<< (7 - cb)) ∧
        video (((y0 + r) % 32) * 64 + (x0 + cb) % 64) = true)) := by
  intro rem
  induction rem with
  | zero =>
    intro row video collision hwin hbnd
    refine ⟨rfl, ?_, ?_, ?_⟩
    · intro r cb h1 h2
      omega
    · intro p _
      rfl
    · constructor
      · intro h
        exact Or.inl h
      · rintro (h | ⟨r, hr1, hr2, -⟩)
        · exact h
        · omega
  | succ m ih =>
    intro row video collision hwin hbnd
    have hrowdist : ∀ r1 r2 cb1 cb2, r1 < 16 → r2 < 16 → r1 ≠ r2 →
        ((y0 + r1) % 32) * 64 + (x0 + cb1) % 64
          ≠ ((y0 + r2) % 32) * 64 + (x0 + cb2) % 64 := by
      intro r1 r2 cb1 cb2 h1 h2 hne
      have hy : (y0 + r1) % 32 ≠ (y0 + r2) % 32 := by omega
      omega
    have e1 : ¬ (65536 ≤ c.i + row) := by omega
    have e2 : ¬ (4096 ≤ c.i + row) := by omega
    have heq : dxynRows c x0 y0 row (m + 1) video collision
        = dxynRows c x0 y0 (row + 1) m
            (dxynCols x0 ((y0 + row) % 32) (c.ram (c.i + row))
              0 8 video collision).1
            (dxynCols x0 ((y0 + row) % 32) (c.ram (c.i + row))
              0 8 video collision).2 := by
      simp only [dxynRows, if_neg e1, if_neg e2]
    obtain ⟨ca, cu, cc⟩ := dxynCols_spec x0 ((y0 + row) % 32)
      (c.ram (c.i + row)) 8 0 video collision (by omega)
    obtain ⟨g0, g1, g2, g3⟩ := ih (row + 1)
      (dxynCols x0 ((y0 + row) % 32) (c.ram (c.i + row))
        0 8 video collision).1
      (dxynCols x0 ((y0 + row) % 32) (c.ram (c.i + row))
        0 8 video collision).2
      (by omega) (by omega)
    rw [heq]
    refine ⟨g0, ?_, ?_, ?_⟩
    · intro r cb h1 h2 h3
      rcases Nat.eq_or_lt_of_le h1 with h | h
      · rw [← h]
        rw [g2 (((y0 + row) % 32) * 64 + (x0 + cb) % 64)
          (fun r2 cb2 hr1 hr2 hcb2 =>
            hrowdist row r2 cb cb2 (by omega) (by omega) (by omega)),
          ca cb (by omega) h3]
      · rw [g1 r cb (by omega) (by omega) h3,
          cu (((y0 + r) % 32) * 64 + (x0 + cb) % 64)
            (fun cb2 hcb1 hcb2 =>
              hrowdist r row cb cb2 (by omega) (by omega) (by omega))]
    · intro p hp
      rw [g2 p (fun r cb h1 h2 h3 => hp r cb (by omega) (by omega) h3),
        cu p (fun cb h1 h2 => hp row cb (by omega) (by omega) h2)]
    · rw [g3, cc]
      constructor
      · rintro ((hcoll | ⟨cb, hc0, hc1, hc2, hc3⟩) | ⟨r, hr1, hr2, cb, hcb, hb, hv⟩)
        · exact Or.inl hcoll
        · exact Or.inr ⟨row, by omega, by omega, cb, hc1, hc2, hc3⟩
        · rw [cu (((y0 + r) % 32) * 64 + (x0 + cb) % 64)
            (fun cb2 h1 h2 =>
              hrowdist r row cb cb2 (by omega) (by omega) (by omega))] at hv
          exact Or.inr ⟨r, by omega, by omega, cb, hcb, hb, hv⟩
      · rintro (hcoll | ⟨r, hr1, hr2, cb, hcb, hb, hv⟩)
        · exact Or.inl (Or.inl hcoll)
        · rcases Nat.eq_or_lt_of_le hr1 with h | h
          · rw [← h] at hb hv
            exact Or.inl (Or.inr ⟨cb, by omega, hcb, hb, hv⟩)
          · refine Or.inr ⟨r, by omega, by omega, cb, hcb, hb, ?_⟩
            rw [cu (((y0 + r) % 32) * 64 + (x0 + cb) % 64)
              (fun cb2 h1 h2 =>
                hrowdist r row cb cb2 (by omega) (by omega) (by omega))]
            exact hv


/-- C3 counterexample: with I = 4095 and N = 2 the draw's second sprite
byte lies at address 4096, so the instruction panics mid-draw instead of
reading the sprite and compositing it, and VF (here preloaded with 7) is
never written — the claim fails for this machine state. -/
theorem c3_counterexample :
    (op_dxyn { zeroChip with
      opcode := 0xD002, i := 4095,
      registers := upd zeroChip.registers 0xF 7 }).2
      = some Panic.indexOutOfBounds ∧
    (op_dxyn { zeroChip with
      opcode := 0xD002, i := 4095,
      registers := upd zeroChip.registers 0xF 7 }).1.registers 0xF = 7 := by
  decide

/-- C3 (corrected, in-bounds premise added): when the N sprite bytes
`ram[I..I+N]` are within RAM, `DRW Vx,Vy,N` XOR-composites bit `7 - cb`
of sprite byte `ram[I + r]` onto the display pixel at row `(Vy + r) % 32`
and column `(Vx + cb) % 64` — the base coordinate `(Vx mod 64, Vy mod 32)`
with per-column wrap mod 64 and per-row wrap mod 32 — leaves every other
pixel unchanged, does not panic, and writes VF = 1 if some drawn bit hit
a lit pixel (the XOR turning it off) and VF = 0 otherwise. -/
theorem c3_sprite_draw (c : Chip8)
    (hbound : c.i + (c.opcode &&& 0x000F) ≤ 4096) :
    (op_dxyn c).2 = none ∧
    (∀ r cb, r < c.opcode &&& 0x000F → cb < 8 →
      (op_dxyn c).1.video
          (((c.registers ((c.opcode &&& 0x00F0) >>> 4) + r) % 32) * 64
            + (c.registers ((c.opcode &&& 0x0F00) >>> 8) + cb) % 64)
        = xor
            (c.video
              (((c.registers ((c.opcode &&& 0x00F0) >>> 4) + r) % 32) * 64
                + (c.registers ((c.opcode &&& 0x0F00) >>> 8) + cb) % 64))
            (decide (0 < c.ram (c.i + r) &&& (1 <<< (7 - cb))))) ∧
    (∀ p, (∀ r cb, r < c.opcode &&& 0x000F → cb < 8 →
        p ≠ ((c.registers ((c.opcode &&& 0x00F0) >>> 4) + r) % 32) * 64
          + (c.registers ((c.opcode &&& 0x0F00) >>> 8) + cb) % 64) →
      (op_dxyn c).1.video p = c.video p) ∧
    ((∃ r, r < (c.opcode &&& 0x000F) ∧ ∃ cb, cb < 8 ∧
        0 < c.ram (c.i + r) &&& (1 <<< (7 - cb)) ∧
        c.video
          (((c.registers ((c.opcode &&& 0x00F0) >>> 4) + r) % 32) * 64
            + (c.registers ((c.opcode &&& 0x0F00) >>> 8) + cb) % 64)
          = true) →
      (op_dxyn c).1.registers 0xF = 1) ∧
    ((¬ ∃ r, r < (c.opcode &&& 0x000F) ∧ ∃ cb, cb < 8 ∧
        0 < c.ram (c.i + r) &&& (1 <<< (7 - cb)) ∧
        c.video
          (((c.registers ((c.opcode &&& 0x00F0) >>> 4) + r) % 32) * 64
            + (c.registers ((c.opcode &&& 0x0F00) >>> 8) + cb) % 64)
          = true) →
      (op_dxyn c).1.registers 0xF = 0) := by
  have hn : c.opcode &&& 0x000F ≤ 0x000F := Nat.and_le_right
  obtain ⟨g0, g1, g2, g3⟩ := dxynRows_spec c
    (c.registers ((c.opcode &&& 0x0F00) >>> 8) % 64)
    (c.registers ((c.opcode &&& 0x00F0) >>> 4) % 64)
    (c.opcode &&& 0x000F) 0 c.video false (by omega) (by omega)
  have hidx : ∀ r cb,
      ((c.registers ((c.opcode &&& 0x00F0) >>> 4) % 64 + r) % 32) * 64
        + (c.registers ((c.opcode &&& 0x0F00) >>> 8) % 64 + cb) % 64
      = ((c.registers ((c.opcode &&& 0x00F0) >>> 4) + r) % 32) * 64
        + (c.registers ((c.opcode &&& 0x0F00) >>> 8) + cb) % 64 := by
    intro r cb
    omega
  have hp : dxynRows c
      (c.registers ((c.opcode &&& 0x0F00) >>> 8) % 64)
      (c.registers ((c.opcode &&& 0x00F0) >>> 4) % 64)
      0 (c.opcode &&& 0x000F) c.video false
      = ((dxynRows c
          (c.registers ((c.opcode &&& 0x0F00) >>> 8) % 64)
          (c.registers ((c.opcode &&& 0x00F0) >>> 4) % 64)
          0 (c.opcode &&& 0x000F) c.video false).1,
         (dxynRows c
          (c.registers ((c.opcode &&& 0x0F00) >>> 8) % 64)
          (c.registers ((c.opcode &&& 0x00F0) >>> 4) % 64)
          0 (c.opcode &&& 0x000F) c.video false).2.1, none) := by
    rw [← g0]
  have hopd : op_dxyn c = ({ c with
      video := (dxynRows c
        (c.registers ((c.opcode &&& 0x0F00) >>> 8) % 64)
        (c.registers ((c.opcode &&& 0x00F0) >>> 4) % 64)
        0 (c.opcode &&& 0x000F) c.video false).1,
      registers := upd c.registers 0xF
        (if (dxynRows c
            (c.registers ((c.opcode &&& 0x0F00) >>> 8) % 64)
            (c.registers ((c.opcode &&& 0x00F0) >>> 4) % 64)
            0 (c.opcode &&& 0x000F) c.video false).2.1 = true
         then 1 else 0) }, none) := by
    simp only [op_dxyn]
    rw [hp]
  refine ⟨by rw [hopd], ?_, ?_, ?_, ?_⟩
  · intro r cb h1 h2
    rw [hopd, ← hidx r cb]
    exact g1 r cb (by omega) (by omega) h2
  · intro p hp2
    rw [hopd]
    refine g2 p ?_
    intro r cb h1 h2 h3
    rw [hidx r cb]
    exact hp2 r cb (by omega) h3
  · rintro ⟨r, hr, cb, hcb, hb, hv⟩
    rw [hopd]
    have hco : (dxynRows c
        (c.registers ((c.opcode &&& 0x0F00) >>> 8) % 64)
        (c.registers ((c.opcode &&& 0x00F0) >>> 4) % 64)
        0 (c.opcode &&& 0x000F) c.video false).2.1 = true := by
      rw [g3]
      refine Or.inr ⟨r, by omega, by omega, cb, hcb, hb, ?_⟩
      rw [hidx r cb]
      exact hv
    simp [hco]
  · intro hne
    rw [hopd]
    have hco : (dxynRows c
        (c.registers ((c.opcode &&& 0x0F00) >>> 8) % 64)
        (c.registers ((c.opcode &&& 0x00F0) >>> 4) % 64)
        0 (c.opcode &&& 0x000F) c.video false).2.1 = false := by
      cases hC : (dxynRows c
        (c.registers ((c.opcode &&& 0x0F00) >>> 8) % 64)
        (c.registers ((c.opcode &&& 0x00F0) >>> 4) % 64)
        0 (c.opcode &&& 0x000F) c.video false).2.1 with
      | false => rfl
      | true =>
        exfalso
        rcases g3.mp hC with hf | ⟨r, hr1, hr2, cb, hcb, hb, hv⟩
        · exact absurd hf (by simp)
        · refine hne ⟨r, by omega, cb, hcb, hb, ?_⟩
          rw [← hidx r cb]
          exact hv
    simp [hco]


/-- Witness for C3: an 8-wide, 1-high sprite with byte 0xC0 drawn at
V0 = 63, V1 = 31 (opcode 0xD011, I = 0x300): the pixel at row 31, column
63 lights, the second sprite column wraps to column 0 of the same row 31
(pixel index 1984), column 2 stays dark, no panic occurs, and VF = 0 on
an empty display. -/
theorem c3_sprite_draw_witness :
    (op_dxyn { zeroChip with
      opcode := 0xD011, i := 0x300,
      registers := upd (upd zeroChip.registers 0 63) 1 31,
      ram := upd zeroChip.ram 0x300 0xC0 }).2 = none ∧
    (op_dxyn { zeroChip with
      opcode := 0xD011, i := 0x300,
      registers := upd (upd zeroChip.registers 0 63) 1 31,
      ram := upd zeroChip.ram 0x300 0xC0 }).1.video (31 * 64 + 63) = true ∧
    (op_dxyn { zeroChip with
      opcode := 0xD011, i := 0x300,
      registers := upd (upd zeroChip.registers 0 63) 1 31,
      ram := upd zeroChip.ram 0x300 0xC0 }).1.video (31 * 64 + 0) = true ∧
    (op_dxyn { zeroChip with
      opcode := 0xD011, i := 0x300,
      registers := upd (upd zeroChip.registers 0 63) 1 31,
      ram := upd zeroChip.ram 0x300 0xC0 }).1.video (31 * 64 + 1) = false ∧
    (op_dxyn { zeroChip with
      opcode := 0xD011, i := 0x300,
      registers := upd (upd zeroChip.registers 0 63) 1 31,
      ram := upd zeroChip.ram 0x300 0xC0 }).1.registers 0xF = 0 := by
  obtain ⟨w0, w1, w2, w3, w4⟩ := c3_sprite_draw { zeroChip with
    opcode := 0xD011, i := 0x300,
    registers := upd (upd zeroChip.registers 0 63) 1 31,
    ram := upd zeroChip.ram 0x300 0xC0 } (by decide)
  refine ⟨w0, ?_, ?_, ?_, ?_⟩
  · have h := w1 0 0 (by decide) (by decide)
    rw [show ((({ zeroChip with
        opcode := 0xD011, i := 0x300,
        registers := upd (upd zeroChip.registers 0 63) 1 31,
        ram := upd zeroChip.ram 0x300 0xC0 } : Chip8).registers
          ((0xD011 &&& 0x00F0) >>> 4) + 0) % 32) * 64
        + (({ zeroChip with
        opcode := 0xD011, i := 0x300,
        registers := upd (upd zeroChip.registers 0 63) 1 31,
        ram := upd zeroChip.ram 0x300 0xC0 } : Chip8).registers
          ((0xD011 &&& 0x0F00) >>> 8) + 0) % 64
        = 31 * 64 + 63 from by decide] at h
    rw [h]
    decide
  · have h := w1 0 1 (by decide) (by decide)
    rw [show ((({ zeroChip with
        opcode := 0xD011, i := 0x300,
        registers := upd (upd zeroChip.registers 0 63) 1 31,
        ram := upd zeroChip.ram 0x300 0xC0 } : Chip8).registers
          ((0xD011 &&& 0x00F0) >>> 4) + 0) % 32) * 64
        + (({ zeroChip with
        opcode := 0xD011, i := 0x300,
        registers := upd (upd zeroChip.registers 0 63) 1 31,
        ram := upd zeroChip.ram 0x300 0xC0 } : Chip8).registers
          ((0xD011 &&& 0x0F00) >>> 8) + 1) % 64
        = 31 * 64 + 0 from by decide] at h
    rw [h]
    decide
  · have h := w1 0 2 (by decide) (by decide)
    rw [show ((({ zeroChip with
        opcode := 0xD011, i := 0x300,
        registers := upd (upd zeroChip.registers 0 63) 1 31,
        ram := upd zeroChip.ram 0x300 0xC0 } : Chip8).registers
          ((0xD011 &&& 0x00F0) >>> 4) + 0) % 32) * 64
        + (({ zeroChip with
        opcode := 0xD011, i := 0x300,
        registers := upd (upd zeroChip.registers 0 63) 1 31,
        ram := upd zeroChip.ram 0x300 0xC0 } : Chip8).registers
          ((0xD011 &&& 0x0F00) >>> 8) + 2) % 64
        = 31 * 64 + 1 from by decide] at h
    rw [h]
    decide
  · refine w4 ?_
    rintro ⟨r, hr, cb, hcb, hb, hv⟩
    exact Bool.noConfusion hv

end Chip8
